import Mathlib

/-!
# Sv39 address and page-table-entry layout (`labcodes/lab2/kern/mm/mmu.h`)

A shallow embedding of the macros of `mmu.h`.  The header is written for a
64-bit RISC-V target, so `uintptr_t` is a 64-bit unsigned integer.  Machine
words are modelled as natural numbers; every operation that can leave the
64-bit range (`<<`, and the cast `(uintptr_t)`) is reduced modulo `2^64`
explicitly.  `>>`, `&` and `|` never leave the range of their operands.
-/

namespace Mmu

/-! ## Machine words -/

/-- The cast `(uintptr_t)(x)`: truncation to 64 bits. -/
def u64 (x : Nat) : Nat := x % 2 ^ 64

/-- The C expression `x << k` on a 64-bit unsigned operand. -/
def shl64 (x k : Nat) : Nat := (x <<< k) % 2 ^ 64

/-! ## Constants (`mmu.h`, lines 61-73) -/

def NPDPEENTRY : Nat := 512
def NPDEENTRY : Nat := 512
def NPTEENTRY : Nat := 512

def PGSIZE : Nat := 4096
def PGSHIFT : Nat := 12
def PTSIZE : Nat := PGSIZE * NPTEENTRY
def PTSHIFT : Nat := 22

def PTXSHIFT : Nat := 12
def PDXSHIFT : Nat := 21
def PDPXSHIFT : Nat := 30
def PTE_PPN_SHIFT : Nat := 10

/-! ## Page table entry fields (`mmu.h`, lines 76-93) -/

def PTE_V : Nat := 0x001
def PTE_R : Nat := 0x002
def PTE_W : Nat := 0x004
def PTE_X : Nat := 0x008
def PTE_U : Nat := 0x010
def PTE_G : Nat := 0x020
def PTE_A : Nat := 0x040
def PTE_D : Nat := 0x080
def PTE_SOFT : Nat := 0x300

def PAGE_TABLE_DIR : Nat := PTE_V
def READ_ONLY : Nat := PTE_R ||| PTE_V
def READ_WRITE : Nat := PTE_R ||| PTE_W ||| PTE_V
def EXEC_ONLY : Nat := PTE_X ||| PTE_V
def READ_EXEC : Nat := PTE_R ||| PTE_X ||| PTE_V
def READ_WRITE_EXEC : Nat := PTE_R ||| PTE_W ||| PTE_X ||| PTE_V

def PTE_USER : Nat := PTE_R ||| PTE_W ||| PTE_X ||| PTE_U ||| PTE_V

/-! ## Linear address macros (`mmu.h`, lines 38-53) -/

/-- Page directory pointer index:
`((((uintptr_t)(la)) >> PDPXSHIFT) & 0x1FF)`. -/
def PDPX (la : Nat) : Nat := (u64 la >>> PDPXSHIFT) &&& 0x1FF

/-- Page directory index: `((((uintptr_t)(la)) >> PDXSHIFT) & 0x1FF)`. -/
def PDX (la : Nat) : Nat := (u64 la >>> PDXSHIFT) &&& 0x1FF

/-- Page table index: `((((uintptr_t)(la)) >> PTXSHIFT) & 0x1FF)`. -/
def PTX (la : Nat) : Nat := (u64 la >>> PTXSHIFT) &&& 0x1FF

/-- Page number field of address: `(((uintptr_t)(la)) >> PTXSHIFT)`. -/
def PPN (la : Nat) : Nat := u64 la >>> PTXSHIFT

/-- Offset in page: `(((uintptr_t)(la)) & 0xFFF)`. -/
def PGOFF (la : Nat) : Nat := u64 la &&& 0xFFF

/-- Construct a linear address from indexes and offset:
`((uintptr_t)((p) << PDPXSHIFT | (d) << PDXSHIFT | (t) << PTXSHIFT | (o)))`.
In C `<<` binds tighter than `|`; the arguments are 64-bit unsigned words, so
each shift is a 64-bit shift. -/
def PGADDR (p d t o : Nat) : Nat :=
  u64 (shl64 p PDPXSHIFT ||| shl64 d PDXSHIFT ||| shl64 t PTXSHIFT ||| o)

/-! ## Address held in an entry (`mmu.h`, lines 56-58) -/

/-- The literal mask of `PTE_ADDR`: `0x3FFFFFFFFFFC00`. -/
def PTE_ADDR_MASK : Nat := 0x3FFFFFFFFFFC00

/-- Address in page table or page directory entry:
`(((uintptr_t)(pte) & 0x3FFFFFFFFFFC00) << 2)`. -/
def PTE_ADDR (pte : Nat) : Nat := shl64 (u64 pte &&& PTE_ADDR_MASK) 2

/-- The macro `PDE_ADDR(pde)` expands to `PTE_ADDR(pde)`. -/
def PDE_ADDR (pde : Nat) : Nat := PTE_ADDR pde

/-- The macro `PDPE_ADDR(pdpe)` expands to `PDE_ADDR(pdpe)`. -/
def PDPE_ADDR (pdpe : Nat) : Nat := PDE_ADDR pdpe

/-! ## Entry construction and inspection -/

/-- Modelled from the spec: `build_pte`, which `mmu.h` does not define.  The
spec gives its output as
`((frame_base_address >> 12) << 10) | permission_class`, the two shift
amounts being `PTXSHIFT` and `PTE_PPN_SHIFT`; both arguments are 64-bit
unsigned words. -/
def build_pte (addr c : Nat) : Nat :=
  shl64 (u64 addr >>> PTXSHIFT) PTE_PPN_SHIFT ||| u64 c

/-- Modelled from the spec: `has_flag`, which `mmu.h` does not define:
"returns whether the given single-bit flag is set". -/
def has_flag (pte flag_bit : Nat) : Bool := decide (u64 pte &&& flag_bit ≠ 0)

/-- Modelled from the spec: `is_leaf`, which `mmu.h` does not define:
"`R|W|X` bits nonzero". -/
def is_leaf (pte : Nat) : Bool :=
  decide (u64 pte &&& (PTE_R ||| PTE_W ||| PTE_X) ≠ 0)

/-- The permission classes of the catalogue (`mmu.h`, lines 86-93). -/
def permissionClasses : List Nat :=
  [PAGE_TABLE_DIR, READ_ONLY, READ_WRITE, EXEC_ONLY, READ_EXEC,
    READ_WRITE_EXEC, PTE_USER]

/-- The single-bit flags of an entry (`mmu.h`, lines 76-83). -/
def singleBitFlags : List Nat :=
  [PTE_V, PTE_R, PTE_W, PTE_X, PTE_U, PTE_G, PTE_A, PTE_D]

/-! ## Bit-level helper lemmas -/

theorem testBit_0x1FF (i : Nat) : Nat.testBit 0x1FF i = decide (i < 9) :=
  Nat.testBit_two_pow_sub_one 9 i

theorem testBit_0xFFF (i : Nat) : Nat.testBit 0xFFF i = decide (i < 12) :=
  Nat.testBit_two_pow_sub_one 12 i

theorem testBit_0x3FF (i : Nat) : Nat.testBit 0x3FF i = decide (i < 10) :=
  Nat.testBit_two_pow_sub_one 10 i

theorem testBit_PTE_ADDR_MASK (i : Nat) :
    Nat.testBit PTE_ADDR_MASK i = (decide (10 ≤ i) && decide (i < 54)) := by
  have e : PTE_ADDR_MASK = (2 ^ 44 - 1) <<< 10 := by decide
  rw [e, Nat.testBit_shiftLeft, Nat.testBit_two_pow_sub_one]
  by_cases h : 10 ≤ i
  · simp [h]; omega
  · simp [h]

/-- A word below `2^n` has no bit set at position `n` or above. -/
theorem testBit_high {x n : Nat} (h : x < 2 ^ n) (j : Nat) (hj : n ≤ j) :
    x.testBit j = false :=
  Nat.testBit_lt_two_pow (lt_of_lt_of_le h (Nat.pow_le_pow_right (by norm_num) hj))

/-- A word whose low 12 bits are masked to zero has no bit set below 12. -/
theorem testBit_low_of_aligned {x : Nat} (h : x &&& 0xFFF = 0) (j : Nat) (hj : j < 12) :
    x.testBit j = false := by
  have e := congrArg (fun y => Nat.testBit y j) h
  simpa [testBit_0xFFF, hj] using e

theorem u64_of_lt {x : Nat} (h : x < 2 ^ 64) : u64 x = x := Nat.mod_eq_of_lt h

theorem and_0xFFF (x : Nat) : x &&& 0xFFF = x % 4096 :=
  Nat.and_pow_two_sub_one_eq_mod x 12

theorem and_0x1FF (x : Nat) : x &&& 0x1FF = x % 512 :=
  Nat.and_pow_two_sub_one_eq_mod x 9

theorem permissionClasses_lt {c : Nat} (hc : c ∈ permissionClasses) : c < 2 ^ 10 := by
  simp only [permissionClasses, List.mem_cons, List.mem_singleton, List.not_mem_nil,
    or_false] at hc
  rcases hc with h | h | h | h | h | h | h <;> subst h <;> decide

/-! ## Round trips of the linear address macros -/

/-- C1: decompose then compose.  For every linear address `la` below `2^39`
(all bits above position 38 zero), `PGADDR(PDPX(la), PDX(la), PTX(la),
PGOFF(la))` is `la`; and `0x3000` decomposes to `(0, 0, 3, 0)`, which
`PGADDR` composes back to `0x3000`. -/
theorem PGADDR_decompose_roundtrip (la : Nat) (h : la < 2 ^ 39) :
    PGADDR (PDPX la) (PDX la) (PTX la) (PGOFF la) = la ∧
      (PDPX 0x3000 = 0 ∧ PDX 0x3000 = 0 ∧ PTX 0x3000 = 3 ∧ PGOFF 0x3000 = 0 ∧
        PGADDR 0 0 3 0 = 0x3000) := by
  refine ⟨?_, by decide⟩
  apply Nat.eq_of_testBit_eq
  intro i
  simp only [PGADDR, PDPX, PDX, PTX, PGOFF, u64, shl64, PDPXSHIFT, PDXSHIFT, PTXSHIFT,
    Nat.testBit_mod_two_pow, Nat.testBit_or, Nat.testBit_and, Nat.testBit_shiftLeft,
    Nat.testBit_shiftRight, testBit_0x1FF, testBit_0xFFF]
  have hb := testBit_high h
  rcases (by omega : i < 12 ∨ (12 ≤ i ∧ i < 21) ∨ (21 ≤ i ∧ i < 30) ∨ (30 ≤ i ∧ i < 39) ∨ 39 ≤ i)
    with c | c | c | c | c <;>
  simp (disch := omega) [decide_eq_true, decide_eq_false, Nat.add_sub_of_le, hb]

/-- Scenario A: the address `0x3000` lies below `2^39` and survives the
decompose/compose round trip. -/
theorem PGADDR_decompose_roundtrip_witness :
    (0x3000 : Nat) < 2 ^ 39 ∧
      PGADDR (PDPX 0x3000) (PDX 0x3000) (PTX 0x3000) (PGOFF 0x3000) = 0x3000 :=
  ⟨by decide, (PGADDR_decompose_roundtrip 0x3000 (by decide)).1⟩

/-- C2: compose then decompose.  For 64-bit words `p, d, t < 512` and
`o < 4096`, the address `la = PGADDR(p, d, t, o)` has `PDPX(la) = p`,
`PDX(la) = d`, `PTX(la) = t` and `PGOFF(la) = o`. -/
theorem PGADDR_compose_roundtrip (p d t o : Nat) (hp : p < 512) (hd : d < 512)
    (ht : t < 512) (ho : o < 4096) :
    PDPX (PGADDR p d t o) = p ∧ PDX (PGADDR p d t o) = d ∧
      PTX (PGADDR p d t o) = t ∧ PGOFF (PGADDR p d t o) = o := by
  have bp := testBit_high (show p < 2 ^ 9 from hp)
  have bd := testBit_high (show d < 2 ^ 9 from hd)
  have bt := testBit_high (show t < 2 ^ 9 from ht)
  have bo := testBit_high (show o < 2 ^ 12 from ho)
  refine ⟨?_, ?_, ?_, ?_⟩ <;>
  · apply Nat.eq_of_testBit_eq
    intro i
    simp only [PGADDR, PDPX, PDX, PTX, PGOFF, u64, shl64, PDPXSHIFT, PDXSHIFT, PTXSHIFT,
      Nat.testBit_mod_two_pow, Nat.testBit_or, Nat.testBit_and, Nat.testBit_shiftLeft,
      Nat.testBit_shiftRight, testBit_0x1FF, testBit_0xFFF]
    rcases (by omega : i < 9 ∨ (9 ≤ i ∧ i < 12) ∨ 12 ≤ i) with c | c | c <;>
    simp (disch := omega) [decide_eq_true, decide_eq_false, bp, bd, bt, bo]

/-- The fields `(1, 2, 3, 4)` are in range and are read back from the
composed address. -/
theorem PGADDR_compose_roundtrip_witness :
    ((1 : Nat) < 512 ∧ (2 : Nat) < 512 ∧ (3 : Nat) < 512 ∧ (4 : Nat) < 4096) ∧
      (PDPX (PGADDR 1 2 3 4) = 1 ∧ PDX (PGADDR 1 2 3 4) = 2 ∧
        PTX (PGADDR 1 2 3 4) = 3 ∧ PGOFF (PGADDR 1 2 3 4) = 4) :=
  ⟨by decide,
    PGADDR_compose_roundtrip 1 2 3 4 (by decide) (by decide) (by decide) (by decide)⟩

/-! ## Page table entries -/

/-- Bits of an entry built by `build_pte`, for a flag word below `2^10`. -/
theorem testBit_build_pte (addr c : Nat) (hc : c < 2 ^ 10) (i : Nat) :
    (build_pte addr c).testBit i =
      if i < 10 then c.testBit i else (decide (i < 62) && addr.testBit (i + 2)) := by
  have bc := testBit_high hc
  simp only [build_pte, u64, shl64, PTXSHIFT, PTE_PPN_SHIFT, Nat.testBit_mod_two_pow,
    Nat.testBit_or, Nat.testBit_shiftLeft, Nat.testBit_shiftRight]
  have e : ∀ j, 10 ≤ j → 12 + (j - 10) = j + 2 := fun j hj => by omega
  rcases (by omega : i < 10 ∨ (10 ≤ i ∧ i < 62) ∨ (62 ≤ i ∧ i < 64) ∨ 64 ≤ i)
    with h | h | h | h <;>
  simp (disch := omega) [decide_eq_true, decide_eq_false, if_pos, if_neg, bc, e]

/-- The flag region (bits 0-9) of a built entry is the flag word, whatever
the address. -/
theorem build_pte_and_0x3FF (addr c : Nat) (hc : c < 2 ^ 10) :
    build_pte addr c &&& 0x3FF = c := by
  have bc := testBit_high hc
  apply Nat.eq_of_testBit_eq
  intro i
  rw [Nat.testBit_and, testBit_build_pte addr c hc, testBit_0x3FF]
  by_cases h : i < 10
  · simp [h]
  · simp [h, bc i (by omega)]

/-- A built entry is a 64-bit word. -/
theorem build_pte_lt (addr c : Nat) (hc : c < 2 ^ 10) : build_pte addr c < 2 ^ 64 := by
  apply Nat.lt_pow_two_of_testBit
  intro i hi
  rw [testBit_build_pte addr c hc]
  simp (disch := omega) [decide_eq_false, if_neg]

/-- Bits of `PTE_ADDR`. -/
theorem testBit_PTE_ADDR (pte i : Nat) :
    (PTE_ADDR pte).testBit i =
      (decide (12 ≤ i) && decide (i < 56) && pte.testBit (i - 2)) := by
  simp only [PTE_ADDR, u64, shl64, Nat.testBit_mod_two_pow, Nat.testBit_and,
    Nat.testBit_shiftLeft, testBit_PTE_ADDR_MASK]
  rcases (by omega : i < 12 ∨ (12 ≤ i ∧ i < 56) ∨ 56 ≤ i) with h | h | h <;>
  simp (disch := omega) [decide_eq_true, decide_eq_false]

/-- The address extracted from a built entry: bits 12-55 of the address. -/
theorem testBit_PTE_ADDR_build_pte (addr c : Nat) (hc : c < 2 ^ 10) (i : Nat) :
    (PTE_ADDR (build_pte addr c)).testBit i =
      (decide (12 ≤ i) && decide (i < 56) && addr.testBit i) := by
  rw [testBit_PTE_ADDR, testBit_build_pte addr c hc]
  have e : ∀ j, 12 ≤ j → j - 2 + 2 = j := fun j hj => by omega
  rcases (by omega : i < 12 ∨ (12 ≤ i ∧ i < 56) ∨ 56 ≤ i) with h | h | h <;>
  simp (disch := omega) [decide_eq_true, decide_eq_false, if_pos, if_neg, e]

/-- C3 (as stated, refuted): `2^56` is a 64-bit word whose low 12 bits are
zero, yet `PTE_ADDR(build_pte(2^56, READ_WRITE))` is `0`, not `2^56`. -/
theorem PTE_ADDR_build_pte_counterexample :
    (2 ^ 56 : Nat) < 2 ^ 64 ∧ (2 ^ 56 : Nat) &&& 0xFFF = 0 ∧
      READ_WRITE ∈ permissionClasses ∧
      PTE_ADDR (build_pte (2 ^ 56) READ_WRITE) = 0 ∧
      PTE_ADDR (build_pte (2 ^ 56) READ_WRITE) ≠ 2 ^ 56 := by
  decide

/-- C3 (amended): for every page-aligned address `addr` below `2^56` (the
physical address width) and every permission class `c` of the catalogue,
`PTE_ADDR(build_pte(addr, c))` is `addr`; `0x87000000` with `READ_WRITE`
gives the entry `0x21C00007`, from which `PTE_ADDR` extracts `0x87000000`. -/
theorem PTE_ADDR_build_pte_roundtrip (addr c : Nat) (h56 : addr < 2 ^ 56)
    (hal : addr &&& 0xFFF = 0) (hc : c ∈ permissionClasses) :
    PTE_ADDR (build_pte addr c) = addr ∧
      (build_pte 0x87000000 READ_WRITE = 0x21C00007 ∧
        PTE_ADDR 0x21C00007 = 0x87000000) := by
  refine ⟨?_, by decide⟩
  have bh := testBit_high h56
  have bl := testBit_low_of_aligned hal
  apply Nat.eq_of_testBit_eq
  intro i
  rw [testBit_PTE_ADDR_build_pte addr c (permissionClasses_lt hc)]
  rcases (by omega : i < 12 ∨ (12 ≤ i ∧ i < 56) ∨ 56 ≤ i) with h | h | h <;>
  simp (disch := omega) [decide_eq_true, decide_eq_false, bh, bl]

/-- Scenario B: `0x87000000` is page-aligned and below `2^56`, `READ_WRITE`
is a catalogue class, and the address is recovered from the built entry. -/
theorem PTE_ADDR_build_pte_roundtrip_witness :
    (0x87000000 : Nat) < 2 ^ 56 ∧ (0x87000000 : Nat) &&& 0xFFF = 0 ∧
      READ_WRITE ∈ permissionClasses ∧
      PTE_ADDR (build_pte 0x87000000 READ_WRITE) = 0x87000000 :=
  ⟨by decide, by decide, by decide,
    (PTE_ADDR_build_pte_roundtrip 0x87000000 READ_WRITE (by decide) (by decide)
      (by decide)).1⟩

/-- Masking a built entry inside the flag region reads the flag word. -/
theorem build_pte_and_flags (addr c m : Nat) (hc : c < 2 ^ 10) (hm : 0x3FF &&& m = m) :
    build_pte addr c &&& m = c &&& m := by
  calc build_pte addr c &&& m = build_pte addr c &&& (0x3FF &&& m) := by rw [hm]
    _ = (build_pte addr c &&& 0x3FF) &&& m := (Nat.and_assoc _ _ _).symm
    _ = c &&& m := by rw [build_pte_and_0x3FF addr c hc]

theorem singleBitFlags_mask {F : Nat} (hF : F ∈ singleBitFlags) : 0x3FF &&& F = F := by
  simp only [singleBitFlags, List.mem_cons, List.mem_singleton, List.not_mem_nil,
    or_false] at hF
  rcases hF with h | h | h | h | h | h | h | h <;> subst h <;> decide

/-- C4: flag read-back.  For every address `addr` (page-aligned in
particular; alignment is not needed), every permission class `c` of the
catalogue and every single-bit flag `F`, the entry
`pte = ((addr >> 12) << 10) | c` has `(pte & F) != 0` exactly when
`(c & F) != 0` (so `has_flag` answers as `c` does), and `pte & 0x3FF == c`. -/
theorem build_pte_flag_readback (addr c F : Nat)
    (hc : c ∈ permissionClasses) (hF : F ∈ singleBitFlags) :
    (build_pte addr c &&& F ≠ 0 ↔ c &&& F ≠ 0) ∧
      has_flag (build_pte addr c) F = decide (c &&& F ≠ 0) ∧
      build_pte addr c &&& 0x3FF = c := by
  have hlt := permissionClasses_lt hc
  have e := build_pte_and_flags addr c F hlt (singleBitFlags_mask hF)
  refine ⟨by rw [e], ?_, build_pte_and_0x3FF addr c hlt⟩
  simp only [has_flag, u64_of_lt (build_pte_lt addr c hlt), e]

/-- Scenario B: in the entry built from `0x87000000` with `READ_WRITE`, the
flag `PTE_W` reads back as set, as it is in `READ_WRITE`. -/
theorem build_pte_flag_readback_witness :
    (0x87000000 : Nat) &&& 0xFFF = 0 ∧ READ_WRITE ∈ permissionClasses ∧
      PTE_W ∈ singleBitFlags ∧
      ((build_pte 0x87000000 READ_WRITE &&& PTE_W ≠ 0 ↔ READ_WRITE &&& PTE_W ≠ 0) ∧
        has_flag (build_pte 0x87000000 READ_WRITE) PTE_W =
          decide (READ_WRITE &&& PTE_W ≠ 0) ∧
        build_pte 0x87000000 READ_WRITE &&& 0x3FF = READ_WRITE) :=
  ⟨by decide, by decide, by decide,
    build_pte_flag_readback 0x87000000 READ_WRITE PTE_W (by decide) (by decide)⟩

/-- Whether a built entry is a leaf depends on the flag word alone. -/
theorem is_leaf_build_pte (addr c : Nat) (hc : c < 2 ^ 10) :
    is_leaf (build_pte addr c) = decide (c &&& (PTE_R ||| PTE_W ||| PTE_X) ≠ 0) := by
  simp only [is_leaf, u64_of_lt (build_pte_lt addr c hc),
    build_pte_and_flags addr c (PTE_R ||| PTE_W ||| PTE_X) hc (by decide)]

/-- C5: leaf/pointer distinction.  For every address `addr`, the entry built
with `PAGE_TABLE_DIR` is not a leaf, and the entry built with any other
catalogue class (`READ_ONLY`, `READ_WRITE`, `EXEC_ONLY`, `READ_EXEC`,
`READ_WRITE_EXEC`, `PTE_USER`) is a leaf. -/
theorem is_leaf_build_pte_catalogue (addr : Nat) :
    is_leaf (build_pte addr PAGE_TABLE_DIR) = false ∧
      is_leaf (build_pte addr READ_ONLY) = true ∧
      is_leaf (build_pte addr READ_WRITE) = true ∧
      is_leaf (build_pte addr EXEC_ONLY) = true ∧
      is_leaf (build_pte addr READ_EXEC) = true ∧
      is_leaf (build_pte addr READ_WRITE_EXEC) = true ∧
      is_leaf (build_pte addr PTE_USER) = true := by
  refine ⟨?_, ?_, ?_, ?_, ?_, ?_, ?_⟩ <;>
  · rw [is_leaf_build_pte addr _ (by decide)]
    decide

/-! ## Index bounds and frame numbers -/

/-- C6: indices are always in table bounds.  For every `la`, with no
precondition, `PDPX(la) < NPDPEENTRY`, `PDX(la) < NPDEENTRY`,
`PTX(la) < NPTEENTRY` and `PGOFF(la) < PGSIZE`. -/
theorem index_in_bounds (la : Nat) :
    PDPX la < NPDPEENTRY ∧ PDX la < NPDEENTRY ∧ PTX la < NPTEENTRY ∧
      PGOFF la < PGSIZE := by
  refine ⟨?_, ?_, ?_, ?_⟩
  · exact Nat.and_lt_two_pow _ (show 0x1FF < 2 ^ 9 by decide)
  · exact Nat.and_lt_two_pow _ (show 0x1FF < 2 ^ 9 by decide)
  · exact Nat.and_lt_two_pow _ (show 0x1FF < 2 ^ 9 by decide)
  · exact Nat.and_lt_two_pow _ (show 0xFFF < 2 ^ 12 by decide)

theorem PPN_eq_div {la : Nat} (h : la < 2 ^ 64) : PPN la = la / 4096 := by
  simp only [PPN, u64_of_lt h, PTXSHIFT, Nat.shiftRight_eq_div_pow]

theorem PGOFF_eq_mod {la : Nat} (h : la < 2 ^ 64) : PGOFF la = la % 4096 := by
  simp only [PGOFF, u64_of_lt h, and_0xFFF]

/-- C7: `PPN` is a unique frame key.  For 64-bit addresses `a` and `b`,
`PPN(a) == PPN(b)` exactly when `a - PGOFF(a) == b - PGOFF(b)` (the
subtractions do not wrap, as `PGOFF(x) <= x`); and every 64-bit `la` is
`PPN(la) * PGSIZE + PGOFF(la)`, exactly and so without wrap-around. -/
theorem PPN_frame_key (a b la : Nat) (ha : a < 2 ^ 64) (hb : b < 2 ^ 64)
    (hla : la < 2 ^ 64) :
    (PPN a = PPN b ↔ a - PGOFF a = b - PGOFF b) ∧ PGOFF a ≤ a ∧ PGOFF b ≤ b ∧
      la = PPN la * PGSIZE + PGOFF la := by
  rw [PPN_eq_div ha, PPN_eq_div hb, PPN_eq_div hla, PGOFF_eq_mod ha, PGOFF_eq_mod hb,
    PGOFF_eq_mod hla]
  simp only [PGSIZE]
  omega

/-- The addresses `0x87654321` and `0x87654FFF` share the frame `0x87654`;
`0x87654321` is `0x87654 * 4096 + 0x321`. -/
theorem PPN_frame_key_witness :
    ((0x87654321 : Nat) < 2 ^ 64 ∧ (0x87654FFF : Nat) < 2 ^ 64) ∧
      ((PPN 0x87654321 = PPN 0x87654FFF ↔
          0x87654321 - PGOFF 0x87654321 = 0x87654FFF - PGOFF 0x87654FFF) ∧
        PGOFF 0x87654321 ≤ 0x87654321 ∧ PGOFF 0x87654FFF ≤ 0x87654FFF ∧
        0x87654321 = PPN 0x87654321 * PGSIZE + PGOFF 0x87654321) :=
  ⟨by decide,
    PPN_frame_key 0x87654321 0x87654FFF 0x87654321 (by decide) (by decide) (by decide)⟩

/-! ## Layout of the entry word -/

/-- C8: bit-exact entry layout.  `PTE_V` ... `PTE_D` are the single bits
0 ... 7 and `PTE_SOFT` is bits 8-9; these nine masks and the field mask of
`PTE_ADDR`, `0x3FFFFFFFFFFC00` (44 bits starting at bit `PTE_PPN_SHIFT = 10`),
are pairwise disjoint; the flag masks OR to `0x3FF`, and flags and field mask
together OR to `2^54 - 1`. -/
theorem pte_layout :
    (PTE_V = 2 ^ 0 ∧ PTE_R = 2 ^ 1 ∧ PTE_W = 2 ^ 2 ∧ PTE_X = 2 ^ 3 ∧ PTE_U = 2 ^ 4 ∧
        PTE_G = 2 ^ 5 ∧ PTE_A = 2 ^ 6 ∧ PTE_D = 2 ^ 7 ∧ PTE_SOFT = 2 ^ 8 ||| 2 ^ 9) ∧
      PTE_ADDR_MASK = 0x3FFFFFFFFFFC00 ∧
      List.Pairwise (fun m n => m &&& n = 0)
        [PTE_V, PTE_R, PTE_W, PTE_X, PTE_U, PTE_G, PTE_A, PTE_D, PTE_SOFT,
          PTE_ADDR_MASK] ∧
      PTE_V ||| PTE_R ||| PTE_W ||| PTE_X ||| PTE_U ||| PTE_G ||| PTE_A ||| PTE_D |||
        PTE_SOFT = 0x3FF ∧
      PTE_V ||| PTE_R ||| PTE_W ||| PTE_X ||| PTE_U ||| PTE_G ||| PTE_A ||| PTE_D |||
        PTE_SOFT ||| PTE_ADDR_MASK = 2 ^ 54 - 1 ∧
      PTE_PPN_SHIFT = 10 ∧ PTE_ADDR_MASK = (2 ^ 44 - 1) <<< PTE_PPN_SHIFT := by
  decide

/-! ## Behaviour outside the preconditions -/

/-- Aligning the address down does not change the built entry. -/
theorem build_pte_align_down (a c : Nat) (ha : a < 2 ^ 64) (hc : c < 2 ^ 10) :
    build_pte a c = build_pte (a - PGOFF a) c := by
  apply Nat.eq_of_testBit_eq
  intro i
  rw [testBit_build_pte a c hc, testBit_build_pte (a - PGOFF a) c hc]
  have e : (a - PGOFF a).testBit (i + 2) = (decide (10 ≤ i) && a.testBit (i + 2)) := by
    have h1 : a - PGOFF a = (a >>> 12) <<< 12 := by
      rw [PGOFF_eq_mod ha, Nat.shiftRight_eq_div_pow, Nat.shiftLeft_eq]
      omega
    rw [h1, Nat.testBit_shiftLeft, Nat.testBit_shiftRight]
    by_cases h : 10 ≤ i
    · have e2 : 12 + (i - 10) = i + 2 := by omega
      simp (disch := omega) [decide_eq_true, e2]
    · simp (disch := omega) [decide_eq_false]
  rw [e]
  by_cases h : i < 10
  · simp [h]
  · simp (disch := omega) [decide_eq_true, if_neg]

/-- C9 (as stated, refuted): no address, aligned or not, and no flag word
below `2^10` (the catalogue classes in particular) make the low ten bits of
`build_pte(a, c)` differ from `c`. -/
theorem build_pte_unaligned_counterexample :
    (¬ ∃ a c : Nat, a < 2 ^ 64 ∧ a &&& 0xFFF ≠ 0 ∧ c ∈ permissionClasses ∧
        build_pte a c &&& 0x3FF ≠ c) ∧
      (¬ ∃ a c : Nat, a < 2 ^ 64 ∧ a &&& 0xFFF ≠ 0 ∧ c < 2 ^ 10 ∧
        build_pte a c &&& 0x3FF ≠ c) := by
  constructor
  · rintro ⟨a, c, _, _, hc, h⟩
    exact h (build_pte_and_0x3FF a c (permissionClasses_lt hc))
  · rintro ⟨a, c, _, _, hc, h⟩
    exact h (build_pte_and_0x3FF a c hc)

/-- C9 (amended): `build_pte` drops the low 12 bits of the address by its
`>> 12`, so an unaligned address leaves the flag region intact: for every
64-bit address `a` and every flag word `c` below `2^10`, the low ten bits of
`build_pte(a, c)` are `c`, and the entry is the one built from the
aligned-down address `a - PGOFF(a)`. -/
theorem build_pte_unaligned (a c : Nat) (ha : a < 2 ^ 64) (hc : c < 2 ^ 10) :
    build_pte a c &&& 0x3FF = c ∧ build_pte a c = build_pte (a - PGOFF a) c :=
  ⟨build_pte_and_0x3FF a c hc, build_pte_align_down a c ha hc⟩

/-- The unaligned address `0x87000FFF` with `READ_WRITE` gives the same
entry `0x21C00007` as `0x87000000`, flag region intact. -/
theorem build_pte_unaligned_witness :
    (0x87000FFF : Nat) < 2 ^ 64 ∧ (0x87000FFF : Nat) &&& 0xFFF ≠ 0 ∧
      READ_WRITE < 2 ^ 10 ∧
      build_pte 0x87000FFF READ_WRITE &&& 0x3FF = READ_WRITE ∧
      build_pte 0x87000FFF READ_WRITE =
        build_pte (0x87000FFF - PGOFF 0x87000FFF) READ_WRITE :=
  ⟨by decide, by decide, by decide,
    build_pte_unaligned 0x87000FFF READ_WRITE (by decide) (by decide)⟩

/-- C10: out-of-range compose fields overlap into the next field.  For all
words `p, d, t, o`, with no range precondition,
`PTX(PGADDR(p, d, t, o)) == (t | (o >> 12)) & 0x1FF` and
`PDX(PGADDR(p, d, t, o)) == (d | (t >> 9) | (o >> 21)) & 0x1FF`; in
particular `PGADDR(0, 0, 512, 0) == PGADDR(0, 1, 0, 0)`. -/
theorem PGADDR_field_overlap (p d t o : Nat) :
    PTX (PGADDR p d t o) = (t ||| (o >>> 12)) &&& 0x1FF ∧
      PDX (PGADDR p d t o) = (d ||| (t >>> 9) ||| (o >>> 21)) &&& 0x1FF ∧
      PGADDR 0 0 512 0 = PGADDR 0 1 0 0 := by
  refine ⟨?_, ?_, by decide⟩ <;>
  · apply Nat.eq_of_testBit_eq
    intro i
    simp only [PGADDR, PDX, PTX, u64, shl64, PDPXSHIFT, PDXSHIFT, PTXSHIFT,
      Nat.testBit_mod_two_pow, Nat.testBit_or, Nat.testBit_and, Nat.testBit_shiftLeft,
      Nat.testBit_shiftRight, testBit_0x1FF]
    have e : ∀ j, 21 + j - 12 = 9 + j := fun j => by omega
    by_cases h : i < 9
    · simp (disch := omega) [decide_eq_true, decide_eq_false, e]
    · simp [h]

/-! ## Sizes and shifts -/

/-- C11 (evaluated on the header): `PTSHIFT` is 22, so `1 << PTSHIFT` is
`4194304`, while `PTSIZE = PGSIZE * NPTEENTRY` is `2097152 = 1 << 21`; the
constant documented as `log2(PTSIZE)` is one too large.  `PGSHIFT` is the
logarithm of `PGSIZE`, and `PDXSHIFT` is the logarithm of `PTSIZE`. -/
theorem PTSHIFT_not_log2_PTSIZE :
    PTSHIFT = 22 ∧ 1 <<< PTSHIFT = 4194304 ∧ PTSIZE = PGSIZE * NPTEENTRY ∧
      PTSIZE = 2097152 ∧ 1 <<< PTSHIFT ≠ PTSIZE ∧ 1 <<< PTSHIFT = 2 * PTSIZE ∧
      1 <<< PGSHIFT = PGSIZE ∧ 1 <<< PDXSHIFT = PTSIZE := by
  decide

theorem PDPX_eq_div {la : Nat} (h : la < 2 ^ 64) : PDPX la = la / 2 ^ 30 % 512 := by
  simp only [PDPX, u64_of_lt h, PDPXSHIFT, Nat.shiftRight_eq_div_pow, and_0x1FF]

theorem PDX_eq_div {la : Nat} (h : la < 2 ^ 64) : PDX la = la / 2 ^ 21 % 512 := by
  simp only [PDX, u64_of_lt h, PDXSHIFT, Nat.shiftRight_eq_div_pow, and_0x1FF]

theorem PTX_eq_div {la : Nat} (h : la < 2 ^ 64) : PTX la = la / 2 ^ 12 % 512 := by
  simp only [PTX, u64_of_lt h, PTXSHIFT, Nat.shiftRight_eq_div_pow, and_0x1FF]

/-- C12: `PTSIZE` is the span of one page directory entry.
`PTSIZE == 2097152 == 1 << PDXSHIFT`, and for addresses `a, b` below `2^39`
the pairs `(PDPX(a), PDX(a))` and `(PDPX(b), PDX(b))` are equal exactly when
`a / PTSIZE == b / PTSIZE`. -/
theorem PTSIZE_span (a b : Nat) (ha : a < 2 ^ 39) (hb : b < 2 ^ 39) :
    PTSIZE = 2097152 ∧ PTSIZE = 1 <<< PDXSHIFT ∧
      ((PDPX a, PDX a) = (PDPX b, PDX b) ↔ a / PTSIZE = b / PTSIZE) := by
  refine ⟨by decide, by decide, ?_⟩
  have ha64 : a < 2 ^ 64 := lt_of_lt_of_le ha (by norm_num)
  have hb64 : b < 2 ^ 64 := lt_of_lt_of_le hb (by norm_num)
  rw [Prod.mk.injEq, PDPX_eq_div ha64, PDPX_eq_div hb64, PDX_eq_div ha64, PDX_eq_div hb64,
    show PTSIZE = 2097152 by decide]
  norm_num at ha hb ⊢
  omega

/-- The addresses `0x87654321` and `0x87600000` lie below `2^39` in the same
2 MiB span and share both directory indices. -/
theorem PTSIZE_span_witness :
    ((0x87654321 : Nat) < 2 ^ 39 ∧ (0x87600000 : Nat) < 2 ^ 39) ∧
      (PTSIZE = 2097152 ∧ PTSIZE = 1 <<< PDXSHIFT ∧
        ((PDPX 0x87654321, PDX 0x87654321) = (PDPX 0x87600000, PDX 0x87600000) ↔
          0x87654321 / PTSIZE = 0x87600000 / PTSIZE)) :=
  ⟨by decide, PTSIZE_span 0x87654321 0x87600000 (by decide) (by decide)⟩

/-! ## Addresses above the 39-bit range -/

theorem testBit_0x7FFFFFFFFF (i : Nat) : Nat.testBit 0x7FFFFFFFFF i = decide (i < 39) :=
  Nat.testBit_two_pow_sub_one 39 i

theorem and_0x7FFFFFFFFF (x : Nat) : x &&& 0x7FFFFFFFFF = x % 2 ^ 39 :=
  Nat.and_pow_two_sub_one_eq_mod x 39

/-- Decomposing and composing again keeps bits 0-38 and clears the rest. -/
theorem PGADDR_decompose_eq_and (la : Nat) :
    PGADDR (PDPX la) (PDX la) (PTX la) (PGOFF la) = la &&& 0x7FFFFFFFFF := by
  apply Nat.eq_of_testBit_eq
  intro i
  simp only [PGADDR, PDPX, PDX, PTX, PGOFF, u64, shl64, PDPXSHIFT, PDXSHIFT, PTXSHIFT,
    Nat.testBit_mod_two_pow, Nat.testBit_or, Nat.testBit_and, Nat.testBit_shiftLeft,
    Nat.testBit_shiftRight, testBit_0x1FF, testBit_0xFFF, testBit_0x7FFFFFFFFF]
  rcases (by omega : i < 12 ∨ (12 ≤ i ∧ i < 21) ∨ (21 ≤ i ∧ i < 30) ∨ (30 ≤ i ∧ i < 39) ∨ 39 ≤ i)
    with c | c | c | c | c <;>
  simp (disch := omega) [decide_eq_true, decide_eq_false, Nat.add_sub_of_le]

/-- C13: no canonicality handling.  For every `la`, with no precondition,
`PGADDR(PDPX(la), PDX(la), PTX(la), PGOFF(la)) == la & 0x7FFFFFFFFF`; the round
trip returns `la` exactly when `la < 2^39` (bits 39-63 zero), and does not
return a canonical address `ca` whose bits 38-63 are all ones. -/
theorem PGADDR_decompose_truncates (la ca : Nat) (hcanon : ca >>> 38 = 2 ^ 26 - 1) :
    PGADDR (PDPX la) (PDX la) (PTX la) (PGOFF la) = la &&& 0x7FFFFFFFFF ∧
      (PGADDR (PDPX la) (PDX la) (PTX la) (PGOFF la) = la ↔ la < 2 ^ 39) ∧
      PGADDR (PDPX ca) (PDX ca) (PTX ca) (PGOFF ca) ≠ ca := by
  have key : ∀ x : Nat, PGADDR (PDPX x) (PDX x) (PTX x) (PGOFF x) = x ↔ x < 2 ^ 39 := by
    intro x
    rw [PGADDR_decompose_eq_and, and_0x7FFFFFFFFF]
    constructor
    · intro h
      rw [← h]
      exact Nat.mod_lt _ (by norm_num)
    · exact Nat.mod_eq_of_lt
  refine ⟨PGADDR_decompose_eq_and la, key la, ?_⟩
  rw [Ne, key ca]
  rw [Nat.shiftRight_eq_div_pow] at hcanon
  norm_num at hcanon ⊢
  omega

/-- The kernel base `0xFFFFFFFFC0200000` is a canonical address with bits
38-63 all ones; the round trip returns `0x7FC0200000` instead. -/
theorem PGADDR_decompose_truncates_witness :
    (0xFFFFFFFFC0200000 : Nat) >>> 38 = 2 ^ 26 - 1 ∧
      PGADDR (PDPX 0xFFFFFFFFC0200000) (PDX 0xFFFFFFFFC0200000)
        (PTX 0xFFFFFFFFC0200000) (PGOFF 0xFFFFFFFFC0200000) = 0x7FC0200000 ∧
      PGADDR (PDPX 0xFFFFFFFFC0200000) (PDX 0xFFFFFFFFC0200000)
        (PTX 0xFFFFFFFFC0200000) (PGOFF 0xFFFFFFFFC0200000) ≠ 0xFFFFFFFFC0200000 :=
  ⟨by decide, by decide,
    (PGADDR_decompose_truncates 0xFFFFFFFFC0200000 0xFFFFFFFFC0200000 (by decide)).2.2⟩

/-! ## The page number and the index fields -/

/-- C16: `PPN` spans the three index fields.  For every `la`,
`PTX(la) == PPN(la) & 0x1FF`, `PDX(la) == (PPN(la) >> 9) & 0x1FF` and
`PDPX(la) == (PPN(la) >> 18) & 0x1FF`; for every `x < 2^39`,
`PPN(x) == (PDPX(x) << 18) | (PDX(x) << 9) | PTX(x)`; and `0x87654000` has
`PGOFF` 0, `PPN` `0x87654` and `PTX == 0x87654 & 0x1FF`. -/
theorem PPN_spans_indices (la x : Nat) (hx : x < 2 ^ 39) :
    PTX la = PPN la &&& 0x1FF ∧ PDX la = (PPN la >>> 9) &&& 0x1FF ∧
      PDPX la = (PPN la >>> 18) &&& 0x1FF ∧
      PPN x = shl64 (PDPX x) 18 ||| shl64 (PDX x) 9 ||| PTX x ∧
      (PGOFF 0x87654000 = 0 ∧ PPN 0x87654000 = 0x87654 ∧
        PTX 0x87654000 = 0x87654 &&& 0x1FF) := by
  refine ⟨rfl, ?_, ?_, ?_, by decide⟩
  · simp only [PDX, PPN, PTXSHIFT, PDXSHIFT, ← Nat.shiftRight_add]
  · simp only [PDPX, PPN, PTXSHIFT, PDPXSHIFT, ← Nat.shiftRight_add]
  · have hb := testBit_high hx
    apply Nat.eq_of_testBit_eq
    intro i
    simp only [PPN, PDPX, PDX, PTX, u64, shl64, PDPXSHIFT, PDXSHIFT, PTXSHIFT,
      Nat.testBit_mod_two_pow, Nat.testBit_or, Nat.testBit_and, Nat.testBit_shiftLeft,
      Nat.testBit_shiftRight, testBit_0x1FF]
    have e1 : ∀ j, 18 ≤ j → 30 + (j - 18) = 12 + j := fun j hj => by omega
    have e2 : ∀ j, 9 ≤ j → 21 + (j - 9) = 12 + j := fun j hj => by omega
    rcases (by omega : i < 9 ∨ (9 ≤ i ∧ i < 18) ∨ (18 ≤ i ∧ i < 27) ∨ 27 ≤ i)
      with c | c | c | c <;>
    simp (disch := omega) [decide_eq_true, decide_eq_false, hb, e1, e2]

/-- Scenario C: `0x87654000` lies below `2^39` and its page number is the
three indices packed together. -/
theorem PPN_spans_indices_witness :
    (0x87654000 : Nat) < 2 ^ 39 ∧
      PPN 0x87654000 =
        shl64 (PDPX 0x87654000) 18 ||| shl64 (PDX 0x87654000) 9 ||| PTX 0x87654000 :=
  ⟨by decide, (PPN_spans_indices 0x87654000 0x87654000 (by decide)).2.2.2.1⟩

/-! ## The address field of an entry -/

theorem u64_and_PTE_ADDR_MASK (x : Nat) : u64 x &&& PTE_ADDR_MASK = x &&& PTE_ADDR_MASK := by
  apply Nat.eq_of_testBit_eq
  intro i
  simp only [u64, Nat.testBit_and, Nat.testBit_mod_two_pow, testBit_PTE_ADDR_MASK]
  by_cases h : i < 54
  · simp (disch := omega) [decide_eq_true]
  · simp (disch := omega) [decide_eq_false]

/-- The extracted address is the 44-bit page number field times the page size. -/
theorem PTE_ADDR_eq_mul (pte : Nat) : PTE_ADDR pte = ((pte >>> 10) % 2 ^ 44) * 4096 := by
  rw [show (4096 : Nat) = 2 ^ 12 by norm_num, ← Nat.shiftLeft_eq]
  apply Nat.eq_of_testBit_eq
  intro i
  rw [testBit_PTE_ADDR]
  simp only [Nat.testBit_shiftLeft, Nat.testBit_mod_two_pow, Nat.testBit_shiftRight]
  have e : ∀ j, 12 ≤ j → 10 + (j - 12) = j - 2 := fun j hj => by omega
  rcases (by omega : i < 12 ∨ (12 ≤ i ∧ i < 56) ∨ 56 ≤ i) with h | h | h <;>
  simp (disch := omega) [decide_eq_true, decide_eq_false, e]

/-- C14: `PTE_ADDR` yields a page-aligned 56-bit address that depends only on
the PPN field.  For every `pte`, `PTE_ADDR(pte) == ((pte >> 10) mod 2^44) *
4096`, so `PTE_ADDR(pte) & 0xFFF == 0` and `PTE_ADDR(pte) < 2^56`; two entries
that agree on bits 10-53 (equal under the mask `0x3FFFFFFFFFFC00`) have the
same `PTE_ADDR`; `PDE_ADDR` and `PDPE_ADDR` are the same function. -/
theorem PTE_ADDR_depends_on_ppn (pte1 pte2 : Nat)
    (hagree : pte1 &&& PTE_ADDR_MASK = pte2 &&& PTE_ADDR_MASK) :
    PTE_ADDR pte1 = ((pte1 >>> 10) % 2 ^ 44) * 4096 ∧
      PTE_ADDR pte1 &&& 0xFFF = 0 ∧ PTE_ADDR pte1 < 2 ^ 56 ∧
      PTE_ADDR pte1 = PTE_ADDR pte2 ∧
      PDE_ADDR pte1 = PTE_ADDR pte1 ∧ PDPE_ADDR pte1 = PTE_ADDR pte1 := by
  refine ⟨PTE_ADDR_eq_mul pte1, ?_, ?_, ?_, rfl, rfl⟩
  · rw [PTE_ADDR_eq_mul, and_0xFFF]
    exact Nat.mul_mod_left _ _
  · rw [PTE_ADDR_eq_mul]
    have h := Nat.mod_lt (pte1 >>> 10) (show 2 ^ 44 > 0 by norm_num)
    norm_num at h ⊢
    omega
  · simp only [PTE_ADDR, u64_and_PTE_ADDR_MASK, hagree]

/-- The entries `0x21C00007` and `0xFFC0000021C003F8` differ in every flag
bit and every reserved bit but agree on bits 10-53; both hold the address
`0x87000000`. -/
theorem PTE_ADDR_depends_on_ppn_witness :
    (0x21C00007 : Nat) &&& PTE_ADDR_MASK = 0xFFC0000021C003F8 &&& PTE_ADDR_MASK ∧
      PTE_ADDR 0x21C00007 = 0x87000000 ∧
      PTE_ADDR 0x21C00007 = PTE_ADDR 0xFFC0000021C003F8 :=
  ⟨by decide, by decide,
    (PTE_ADDR_depends_on_ppn 0x21C00007 0xFFC0000021C003F8 (by decide)).2.2.2.1⟩

theorem testBit_0x00FFFFFFFFFFF000 (i : Nat) :
    Nat.testBit 0x00FFFFFFFFFFF000 i = (decide (12 ≤ i) && decide (i < 56)) := by
  have e : (0x00FFFFFFFFFFF000 : Nat) = (2 ^ 44 - 1) <<< 12 := by decide
  rw [e, Nat.testBit_shiftLeft, Nat.testBit_two_pow_sub_one]
  by_cases h : 12 ≤ i
  · simp [h]; omega
  · simp [h]

/-- Masking with `0x00FFFFFFFFFFF000` is the identity exactly on page-aligned
words below `2^56`. -/
theorem and_0x00FFFFFFFFFFF000_eq_self (x : Nat) :
    x &&& 0x00FFFFFFFFFFF000 = x ↔ (x &&& 0xFFF = 0 ∧ x < 2 ^ 56) := by
  constructor
  · intro h
    have bits : ∀ i, (i < 12 ∨ 56 ≤ i) → x.testBit i = false := by
      intro i hi
      have e := congrArg (fun y => Nat.testBit y i) h
      simp only [Nat.testBit_and, testBit_0x00FFFFFFFFFFF000] at e
      rw [← e]
      rcases hi with hi | hi <;> simp (disch := omega) [decide_eq_false]
    constructor
    · apply Nat.eq_of_testBit_eq
      intro i
      rw [Nat.testBit_and, testBit_0xFFF, Nat.zero_testBit]
      by_cases hi : i < 12
      · simp [bits i (Or.inl hi)]
      · simp [hi]
    · exact Nat.lt_pow_two_of_testBit x (fun i hi => bits i (Or.inr hi))
  · rintro ⟨hal, h56⟩
    have bh := testBit_high h56
    have bl := testBit_low_of_aligned hal
    apply Nat.eq_of_testBit_eq
    intro i
    rw [Nat.testBit_and, testBit_0x00FFFFFFFFFFF000]
    rcases (by omega : i < 12 ∨ (12 ≤ i ∧ i < 56) ∨ 56 ≤ i) with h | h | h <;>
    simp (disch := omega) [decide_eq_true, decide_eq_false, bh, bl]

/-- C15: exact result of build-then-extract.  For every 64-bit `addr` and
every flag value `c < 2^10`, `PTE_ADDR(((addr >> 12) << 10) | c) ==
addr & 0x00FFFFFFFFFFF000`; the round trip returns `addr` exactly when `addr`
is page-aligned and below `2^56`. -/
theorem PTE_ADDR_build_exact (addr c : Nat) (ha : addr < 2 ^ 64) (hc : c < 2 ^ 10) :
    PTE_ADDR (shl64 (addr >>> 12) 10 ||| c) = addr &&& 0x00FFFFFFFFFFF000 ∧
      (PTE_ADDR (shl64 (addr >>> 12) 10 ||| c) = addr ↔
        (addr &&& 0xFFF = 0 ∧ addr < 2 ^ 56)) := by
  have hc64 : c < 2 ^ 64 := lt_of_lt_of_le hc (by norm_num)
  have hb : shl64 (addr >>> 12) 10 ||| c = build_pte addr c := by
    simp only [build_pte, u64_of_lt ha, u64_of_lt hc64, PTXSHIFT, PTE_PPN_SHIFT]
  have key : PTE_ADDR (shl64 (addr >>> 12) 10 ||| c) = addr &&& 0x00FFFFFFFFFFF000 := by
    rw [hb]
    apply Nat.eq_of_testBit_eq
    intro i
    rw [testBit_PTE_ADDR_build_pte addr c hc, Nat.testBit_and,
      testBit_0x00FFFFFFFFFFF000, Bool.and_comm]
  exact ⟨key, by rw [key]; exact and_0x00FFFFFFFFFFF000_eq_self addr⟩

/-- The unaligned address `0xFF00000087000FFF` above `2^56`, packed with
`PTE_USER`, is extracted as `0x87000000`. -/
theorem PTE_ADDR_build_exact_witness :
    (0xFF00000087000FFF : Nat) < 2 ^ 64 ∧ PTE_USER < 2 ^ 10 ∧
      PTE_ADDR (shl64 (0xFF00000087000FFF >>> 12) 10 ||| PTE_USER) = 0x87000000 ∧
      PTE_ADDR (shl64 (0xFF00000087000FFF >>> 12) 10 ||| PTE_USER) =
        0xFF00000087000FFF &&& 0x00FFFFFFFFFFF000 :=
  ⟨by decide, by decide, by decide,
    (PTE_ADDR_build_exact 0xFF00000087000FFF PTE_USER (by decide) (by decide)).1⟩

end Mmu
